import Mathlib

/-!
# Formal model of the 1Password `.1pux` → CSV converter (`main.py`)

A shallow embedding of the converter:

* JSON values decoded by Python's `json.load` are modelled by the nested
  inductive `Json` (numbers are modelled as integers; no part of the
  program inspects numeric values).
* The per-item parsing loop of `OnePasswordConverter._convert_to_keychain`
  and the credential scan `_parse_login_fields` become `processItem` /
  `parseLoginFieldsList`; Python exceptions become `Except` errors.
* The CSV layer (`csv.DictWriter` with the default `excel` dialect) is
  modelled character-exactly for row assembly, minimal quoting and
  quote doubling, together with a standard CSV reader used to state the
  round-trip property.
* Filesystem facts (existence, regular-file-ness, zip validity, presence
  and decodability of `export.data`) are modelled by boolean/optional
  fields of `InputFile`/`Archive`; the scratch-directory lifecycle of the
  `with tempfile.TemporaryDirectory()` block is modelled by the
  `scratchCreated`/`scratchRemoved` flags of `ConvOutcome`.
-/

namespace OneP

/-- JSON values as produced by Python's `json.load`.  Object keys are
unique (Python dicts).  Numbers are modelled as integers. -/
inductive Json where
  | null
  | bool (b : Bool)
  | num (n : Int)
  | str (s : String)
  | arr (elems : List Json)
  | obj (fields : List (String × Json))

/-- Python truthiness (`if x:`) of a JSON-decoded value. -/
def Json.truthy : Json → Bool
  | .null => false
  | .bool b => b
  | .num n => n != 0
  | .str s => !s.isEmpty
  | .arr l => !l.isEmpty
  | .obj m => !m.isEmpty

/-- `d.get(key, default)` on a decoded JSON object (Python `dict.get`). -/
def objGetD (m : List (String × Json)) (k : String) (d : Json) : Json :=
  (m.lookup k).getD d

/-- Python `str.lower` of a field name, modelled character-wise
(`Char.toLower` on each character; exactly `str.lower` on ASCII). -/
def pyLower (s : String) : List Char := s.toList.map Char.toLower

/-- Python `x or ''` applied to the optional credential values
(`username or ''`, `password or ''` in `_convert_to_keychain`):
`None` and falsy values collapse to the empty string. -/
def pyOr (o : Option Json) : Json :=
  match o with
  | none => Json.str ""
  | some v => if v.truthy then v else Json.str ""

/-- The loop body of `_parse_login_fields`: scan the field descriptors in
order; any entry that is not a dict or lacks a `name`/`value` key is
skipped (`continue`); `field['name'].lower()` raises (`AttributeError`)
when the name is not a string; later `username`/`password` matches
overwrite earlier ones.  Lower-casing is modelled character-wise
(`Char.toLower` over the characters, exactly Python's `str.lower` on
ASCII names). -/
def parseLoginFieldsList :
    List Json → Option Json → Option Json →
    Except String (Option Json × Option Json)
  | [], u, p => .ok (u, p)
  | f :: rest, u, p =>
    match f with
    | .obj m =>
      match m.lookup "name", m.lookup "value" with
      | some nameV, some v =>
        match nameV with
        | .str n =>
          if pyLower n = "username".toList then
            parseLoginFieldsList rest (some v) p
          else if pyLower n = "password".toList then
            parseLoginFieldsList rest u (some v)
          else parseLoginFieldsList rest u p
        | _ => .error "AttributeError: field name has no attribute lower"
      | _, _ => parseLoginFieldsList rest u p
    | _ => parseLoginFieldsList rest u p

/-- `_parse_login_fields(login_fields)`.  Python iterates
`for field in login_fields`: a list yields its elements, a string its
characters, a dict its keys (characters and keys are strings, hence
skipped by the `isinstance` check); other values raise `TypeError`. -/
def parseLoginFields : Json → Except String (Option Json × Option Json)
  | .arr l => parseLoginFieldsList l none none
  | .str s =>
      parseLoginFieldsList (s.toList.map fun c => Json.str (String.singleton c))
        none none
  | .obj m => parseLoginFieldsList (m.map fun kv => Json.str kv.1) none none
  | _ => .error "TypeError: login_fields object is not iterable"

/-- The `password_item` dict built for each item in
`_convert_to_keychain`; all six keys are always present.  Field values
are JSON values (arbitrary Python objects fished out of the document). -/
structure Record where
  title : Json
  url : Json
  username : Json
  password : Json
  notes : Json
  otp_auth : Json

/-- The body of the per-item `try` block in `_convert_to_keychain`:
`overview`/`details` default to `{}`, `title` defaults to `'Untitled'`,
`url` to `''`; credentials come from `details.loginFields` only when that
value is truthy; `.get` on a non-dict raises `AttributeError`.  Any error
here is caught by the caller and the item is skipped. -/
def processItem (item : Json) : Except String Record :=
  match item with
  | .obj ifields =>
    let overview := objGetD ifields "overview" (Json.obj [])
    let details := objGetD ifields "details" (Json.obj [])
    match overview with
    | .obj ov =>
      let title := objGetD ov "title" (Json.str "Untitled")
      let url := objGetD ov "url" (Json.str "")
      match details with
      | .obj dv =>
        let loginFields := objGetD dv "loginFields" (Json.arr [])
        match
          (if loginFields.truthy then parseLoginFields loginFields
           else .ok (none, none)) with
        | .ok (u, p) =>
            .ok ⟨title, url, pyOr u, pyOr p, Json.str "", Json.str ""⟩
        | .error e => .error e
      | _ => .error "AttributeError: details has no attribute get"
    | _ => .error "AttributeError: overview has no attribute get"
  | _ => .error "AttributeError: item has no attribute get"

/-- The item loop of `_convert_to_keychain`: a failing item is skipped
(logged as a warning) and the loop continues. -/
def processItems : List Json → List Record
  | [] => []
  | it :: rest =>
    match processItem it with
    | .ok r => r :: processItems rest
    | .error _ => processItems rest

/-- Error kinds of a conversion run (section 7 of the design).  Python
exceptions that the program does not raise deliberately (`TypeError`,
`KeyError`, `AttributeError`, … escaping the navigation code) are
collected under `uncaughtError`. -/
inductive ConvError where
  | fileNotFound
  | notAFile
  | invalidExtension
  | corruptArchive
  | missingDocument
  | malformedDocument
  | emptyAccountList
  | emptyVaultList
  | uncaughtError (msg : String)
deriving DecidableEq

/-- Python `x[0]` on a JSON-decoded value: lists and strings are
subscriptable (a string yields a one-character string), everything else
raises. -/
def pySubscriptZero : Json → Except ConvError Json
  | .arr (x :: _) => .ok x
  | .arr [] => .error (.uncaughtError "IndexError")
  | .str s =>
    match s.toList with
    | c :: _ => .ok (.str (String.singleton c))
    | [] => .error (.uncaughtError "IndexError")
  | _ => .error (.uncaughtError "TypeError: object is not subscriptable")

/-- Python `for x in v` (and `len(v)`) on a JSON-decoded value: lists
yield elements, strings characters, dicts keys; other values raise
`TypeError`. -/
def pyIter : Json → Except ConvError (List Json)
  | .arr l => .ok l
  | .str s => .ok (s.toList.map fun c => Json.str (String.singleton c))
  | .obj m => .ok (m.map fun kv => Json.str kv.1)
  | _ => .error (.uncaughtError "TypeError: object is not iterable")

/-- `_convert_to_keychain`, from the decoded document to the record list:
`json.load` failure (`none`) is a `MalformedDocument` error; then the
`accounts[0].vaults[0].items` navigation with its truthiness checks, and
the tolerant item loop. -/
def convertToKeychain (content : Option Json) : Except ConvError (List Record) :=
  match content with
  | none => .error .malformedDocument
  | some data =>
    match data with
    | .obj df =>
      let accounts := objGetD df "accounts" (Json.arr [])
      if accounts.truthy then
        match pySubscriptZero accounts with
        | .ok acct0 =>
          match acct0 with
          | .obj a0 =>
            let vaults := objGetD a0 "vaults" (Json.arr [])
            if vaults.truthy then
              match pySubscriptZero vaults with
              | .ok vault0 =>
                match vault0 with
                | .obj v0 =>
                  let items := objGetD v0 "items" (Json.arr [])
                  match pyIter items with
                  | .ok l => .ok (processItems l)
                  | .error e => .error e
                | _ =>
                  .error (.uncaughtError "AttributeError: vault has no attribute get")
              | .error e => .error e
            else .error .emptyVaultList
          | _ =>
            .error (.uncaughtError "AttributeError: account has no attribute get")
        | .error e => .error e
      else .error .emptyAccountList
    | _ => .error (.uncaughtError "AttributeError: data has no attribute get")

/-- One character of Python `repr` string escaping for quote style `q`
(backslashes, the quote character, and common control characters). -/
def pyEscChar (q : Char) (c : Char) : List Char :=
  if c = '\\' then ['\\', '\\']
  else if c = q then ['\\', q]
  else if c = '\n' then ['\\', 'n']
  else if c = '\r' then ['\\', 'r']
  else if c = '\t' then ['\\', 't']
  else [c]

/-- Python `repr` of a string: single quotes unless the string contains a
single quote and no double quote. -/
def pyReprStr (s : String) : List Char :=
  let q := if s.toList.contains '\'' && !(s.toList.contains '"') then '"' else '\''
  q :: (s.toList.map (pyEscChar q)).flatten ++ [q]

mutual

/-- Python `str()`/`repr` of a container value, used by `csv.writer` for
non-string cells.  Escaping of rare control/unicode characters inside
nested strings is not modelled; no claim inspects this path. -/
def pyRepr : Json → List Char
  | .null => "None".toList
  | .bool true => "True".toList
  | .bool false => "False".toList
  | .num n => (toString n).toList
  | .str s => pyReprStr s
  | .arr l => '[' :: pyReprElems l ++ [']']
  | .obj m => "\x7b".toList ++ pyReprPairs m ++ "\x7d".toList

/-- `repr` of list elements, separated by `", "`. -/
def pyReprElems : List Json → List Char
  | [] => []
  | [x] => pyRepr x
  | x :: y :: xs => pyRepr x ++ (", ".toList) ++ pyReprElems (y :: xs)

/-- `repr` of dict entries, `key: value` separated by `", "`. -/
def pyReprPairs : List (String × Json) → List Char
  | [] => []
  | [(k, v)] => pyReprStr k ++ (": ".toList) ++ pyRepr v
  | (k, v) :: kv :: xs =>
      pyReprStr k ++ (": ".toList) ++ pyRepr v ++ (", ".toList) ++
        pyReprPairs (kv :: xs)

end

/-- The text `csv.writer` puts in one cell before quoting: `None` becomes
the empty string, strings pass through unchanged, any other object is
converted with `str()`. -/
def csvCell : Json → List Char
  | .null => []
  | .str s => s.toList
  | .bool true => "True".toList
  | .bool false => "False".toList
  | .num n => (toString n).toList
  | j => pyRepr j

/-- Characters that force quoting under the `excel` dialect with
`QUOTE_MINIMAL`: the delimiter, the quote character and line breaks. -/
def isSpecialChar (c : Char) : Bool :=
  c = ',' || c = '"' || c = '\r' || c = '\n'

/-- Does this cell text need quoting? -/
def needsQuote (f : List Char) : Bool := f.any isSpecialChar

/-- Quote doubling inside a quoted cell (`doublequote=True`). -/
def escQ : List Char → List Char
  | [] => []
  | c :: rest => if c = '"' then '"' :: '"' :: escQ rest else c :: escQ rest

/-- One encoded cell: quoted with doubled inner quotes when needed,
verbatim otherwise (`QUOTE_MINIMAL`). -/
def encodeField (f : List Char) : List Char :=
  if needsQuote f then '"' :: (escQ f ++ ['"']) else f

/-- Cells of one row joined with the `,` delimiter. -/
def encodeRowSep : List (List Char) → List Char
  | [] => []
  | [f] => encodeField f
  | f :: g :: rest => encodeField f ++ ',' :: encodeRowSep (g :: rest)

/-- One CSV line as written by `csv.writer` (terminator `\r\n`). -/
def encodeRow (fs : List (List Char)) : List Char :=
  encodeRowSep fs ++ ['\r', '\n']

/-- A whole CSV file: the concatenation of its encoded rows. -/
def encodeCsv (rows : List (List (List Char))) : List Char :=
  (rows.map encodeRow).flatten

/-- `csv.DictWriter._dict_to_list` with the constructor defaults used in
`BasePasswordExporter.export` (`restval=''`, `extrasaction='raise'`): a
key of the row dict outside `fieldnames` raises `ValueError`; a missing
key is filled with the empty-string `restval`. -/
def dictToList (fieldnames : List String) (row : List (String × Json)) :
    Except String (List Json) :=
  if row.any (fun kv => !(fieldnames.contains kv.1)) then
    .error "ValueError: dict contains fields not in fieldnames"
  else .ok (fieldnames.map fun k => (row.lookup k).getD (Json.str ""))

/-- `iCloudPasswordsExporter.get_fieldnames()`. -/
def icloudFieldnames : List String :=
  ["Title", "URL", "Username", "Password", "Notes", "OTPAuth"]

/-- `iCloudPasswordsExporter.transform_item`: every `password_item` dict
carries all six keys, so each `item.get(key, '')` finds its key. -/
def transform_item (r : Record) : List (String × Json) :=
  [("Title", r.title), ("URL", r.url), ("Username", r.username),
   ("Password", r.password), ("Notes", r.notes), ("OTPAuth", r.otp_auth)]

/-- `BasePasswordExporter.export` for the iCloud exporter: write the
header row (`writeheader`), then one row per record through
`transform_item` and the `DictWriter` row pipeline.  The produced value
is the full text of the CSV file. -/
def exportIcloud (recs : List Record) : Except String (List Char) :=
  match recs.mapM (fun r => dictToList icloudFieldnames (transform_item r)) with
  | .ok rows =>
      .ok (encodeRow (icloudFieldnames.map String.toList) ++
           (rows.map (fun cells => encodeRow (cells.map csvCell))).flatten)
  | .error e => .error e

/-- The six cell texts a record contributes to its CSV row, in header
order. -/
def recordCells (r : Record) : List (List Char) :=
  [csvCell r.title, csvCell r.url, csvCell r.username, csvCell r.password,
   csvCell r.notes, csvCell r.otp_auth]

/-- The final component of a path (the part after the last `/`). -/
def lastComponent (path : List Char) : List Char :=
  (path.reverse.takeWhile (fun c => c ≠ '/')).reverse

/-- `pathlib.PurePath.suffix`: the substring of the final component from
its last dot, provided that dot is neither the first nor the last
character of the component; otherwise the empty suffix. -/
def pathSuffix (path : List Char) : List Char :=
  let name := lastComponent path
  match name.reverse.findIdx? (fun c => c = '.') with
  | none => []
  | some j =>
    let i := name.length - 1 - j
    if 0 < i ∧ i < name.length - 1 then name.drop i else []

/-- What the orchestrator can observe about the archive file: zip
validity, presence of the `export.data` entry, and its decoded JSON
content (`none` models a JSON decode failure). -/
structure Archive where
  isZip : Bool
  hasExportData : Bool
  doc : Option Json

/-- What the orchestrator can observe about the input path. -/
structure InputFile where
  path : String
  pathExists : Bool
  isFile : Bool
  archive : Archive

/-- `_validate_input_file`: existence, regular-file-ness, then the
case-insensitive `.1pux` extension check, in that order. -/
def validateInput (f : InputFile) : Except ConvError Unit :=
  if !f.pathExists then .error .fileNotFound
  else if !f.isFile then .error .notAFile
  else if (pathSuffix f.path.toList).map Char.toLower ≠ ".1pux".toList then
    .error .invalidExtension
  else .ok ()

/-- `_extract_1password_file`: a non-zip input is a `CorruptArchive`
error, a missing `export.data` entry a `MissingDocument` error;
otherwise the (possibly undecodable) document content is handed on. -/
def extract1passwordFile (a : Archive) : Except ConvError (Option Json) :=
  if !a.isZip then .error .corruptArchive
  else if !a.hasExportData then .error .missingDocument
  else .ok a.doc

/-- Observable outcome of one `convert()` run: the result (CSV file text
on success) and the scratch-directory / extraction side effects. -/
structure ConvOutcome where
  result : Except ConvError (List Char)
  scratchCreated : Bool
  scratchRemoved : Bool
  extractionAttempted : Bool

/-- The body of the `with tempfile.TemporaryDirectory()` block:
extraction, parsing, exporting, each failure propagating out (an
exporter `ValueError` is an uncaught exception). -/
def convertBody (a : Archive) : Except ConvError (List Char) :=
  match extract1passwordFile a with
  | .error e => .error e
  | .ok content =>
    match convertToKeychain content with
    | .error e => .error e
    | .ok recs =>
      match exportIcloud recs with
      | .ok out => .ok out
      | .error e => .error (.uncaughtError e)

/-- `OnePasswordConverter.convert` (with the default `icloud` format):
validation runs first, before the `with tempfile.TemporaryDirectory()`
block; once that block is entered the scratch directory is created and —
by the context-manager semantics of `TemporaryDirectory` — removed again
on every exit path, whether the body succeeds or raises. -/
def convert (f : InputFile) : ConvOutcome :=
  match validateInput f with
  | .error e =>
      { result := .error e, scratchCreated := false, scratchRemoved := false,
        extractionAttempted := false }
  | .ok _ =>
      { result := convertBody f.archive, scratchCreated := true,
        scratchRemoved := true, extractionAttempted := true }

/-- A standard CSV reader, cell level: the inside of a quoted cell
(called after the opening quote); doubled quotes decode to one quote;
the cell ends at the closing quote. -/
def parseQuoted : List Char → List Char × List Char
  | [] => ([], [])
  | c :: rest =>
    if c = '"' then
      match rest with
      | c2 :: rest2 =>
        if c2 = '"' then
          let p := parseQuoted rest2
          ('"' :: p.1, p.2)
        else ([], rest)
      | [] => ([], [])
    else
      let p := parseQuoted rest
      (c :: p.1, p.2)

/-- Characters ending an unquoted cell. -/
def isFieldEnd (c : Char) : Bool := c = ',' || c = '\r' || c = '\n'

/-- An unquoted cell: everything up to (not including) the next
delimiter or line break. -/
def parseUnquoted : List Char → List Char × List Char
  | [] => ([], [])
  | c :: rest =>
    if isFieldEnd c then ([], c :: rest)
    else
      let p := parseUnquoted rest
      (c :: p.1, p.2)

/-- One CSV cell: quoted when it starts with a quote, verbatim
otherwise. -/
def parseField : List Char → List Char × List Char
  | [] => ([], [])
  | c :: rest => if c = '"' then parseQuoted rest else parseUnquoted (c :: rest)

/-- One CSV row (fuel bounds the number of cells): cells separated by
`,`, the row ended by a line break (`\r\n`, bare `\n` or bare `\r`) or
by the end of the file. -/
def parseRowAux : Nat → List Char → List (List Char) × List Char
  | 0, cs => ([], cs)
  | fuel + 1, cs =>
    let fp := parseField cs
    match fp.2 with
    | [] => ([fp.1], [])
    | c :: rest2 =>
      if c = ',' then
        let q := parseRowAux fuel rest2
        (fp.1 :: q.1, q.2)
      else if c = '\r' then
        match rest2 with
        | c2 :: rest3 => if c2 = '\n' then ([fp.1], rest3) else ([fp.1], rest2)
        | [] => ([fp.1], [])
      else if c = '\n' then ([fp.1], rest2)
      else ([fp.1], c :: rest2)

/-- All rows of a CSV file (fuel bounds the number of rows). -/
def parseCsvAux : Nat → List Char → List (List (List Char))
  | 0, _ => []
  | _, [] => []
  | fuel + 1, cs =>
    let rp := parseRowAux (cs.length + 1) cs
    rp.1 :: parseCsvAux fuel rp.2

/-- A standard CSV reader for a whole file. -/
def parseCsv (cs : List Char) : List (List (List Char)) :=
  parseCsvAux cs.length cs

/-- The value of a well-formed field descriptor whose name matches
`username` case-insensitively. -/
def userFieldValue (f : Json) : Option Json :=
  match f with
  | .obj m =>
    match m.lookup "name", m.lookup "value" with
    | some nameV, some v =>
      match nameV with
      | .str n =>
          if pyLower n = "username".toList then some v
          else none
      | _ => none
    | _, _ => none
  | _ => none

/-- The value of a well-formed field descriptor whose name matches
`password` case-insensitively. -/
def passFieldValue (f : Json) : Option Json :=
  match f with
  | .obj m =>
    match m.lookup "name", m.lookup "value" with
    | some nameV, some v =>
      match nameV with
      | .str n =>
          if pyLower n = "password".toList then some v
          else none
      | _ => none
    | _, _ => none
  | _ => none

/-- The value an accumulator starting at `d` holds after being
overwritten by each element of `l` in order: the last element of `l`,
or `d` when `l` is empty. -/
def lastD : List Json → Option Json → Option Json
  | [], d => d
  | v :: l, _ => lastD l (some v)

/-- A field descriptor that `_parse_login_fields` skips outright: not a
dict, or missing the `name` or the `value` key. -/
def skippedField (f : Json) : Prop :=
  ∀ m, f = Json.obj m → m.lookup "name" = none ∨ m.lookup "value" = none

/-- Text that may legally follow an encoded cell: nothing, or a
delimiter / line break. -/
def restOk : List Char → Bool
  | [] => true
  | c :: _ => isFieldEnd c

/-- The characters of a JSON string value (used to state how string
fields come back from the CSV file). -/
def strChars : Json → List Char
  | .str s => s.toList
  | _ => []

/-- Fixture: the sample item of the specification's first scenario. -/
def itemBank : Json :=
  Json.obj
    [("overview", Json.obj [("title", Json.str "Bank"),
        ("url", Json.str "bank.com")]),
     ("details", Json.obj [("loginFields", Json.arr
        [Json.obj [("name", Json.str "username"),
           ("value", Json.str "alice")],
         Json.obj [("name", Json.str "password"),
           ("value", Json.str "s3cr3t")]])])]

/-- Fixture: an item whose processing raises (`.get` on a string). -/
def itemJunk : Json := Json.str "junk"

/-- Fixture: login fields with case-insensitive duplicates of both
kinds. -/
def dupFields : List Json :=
  [Json.obj [("name", Json.str "USERNAME"), ("value", Json.str "alice")],
   Json.obj [("name", Json.str "username"), ("value", Json.str "bob")],
   Json.obj [("name", Json.str "Password"), ("value", Json.str "p1")],
   Json.obj [("name", Json.str "password"), ("value", Json.str "p2")]]

/-- Fixture: an item carrying the duplicated login fields and no
overview. -/
def itemDup : Json :=
  Json.obj [("details", Json.obj [("loginFields", Json.arr dupFields)])]

/-- Fixture: an item whose only login field descriptor is a bare string
instead of an object. -/
def itemMalformed : Json :=
  Json.obj [("details", Json.obj [("loginFields",
    Json.arr [Json.str "oops"])])]

/-- Fixture: the record parsed from `itemBank`. -/
def recBank : Record :=
  ⟨Json.str "Bank", Json.str "bank.com", Json.str "alice",
   Json.str "s3cr3t", Json.str "", Json.str ""⟩

/-- Fixture: a document with one account holding one vault holding the
given items. -/
def docOf (items : List Json) : Json :=
  Json.obj [("accounts", Json.arr [Json.obj [("vaults", Json.arr
    [Json.obj [("items", Json.arr items)]])]])]

/-! ## Lemmas about the item loop and the credential scan -/

theorem processItems_eq_filterMap (l : List Json) :
    processItems l = l.filterMap (fun it => (processItem it).toOption) := by
  induction l with
  | nil => rfl
  | cons it rest ih =>
    simp only [processItems, List.filterMap_cons]
    cases h : processItem it with
    | ok r => simp [h, Except.toOption, ih]
    | error e => simp [h, Except.toOption, ih]

theorem processItems_append (l₁ l₂ : List Json) :
    processItems (l₁ ++ l₂) = processItems l₁ ++ processItems l₂ := by
  simp [processItems_eq_filterMap, List.filterMap_append]

theorem length_processItems_of_all_ok (l : List Json)
    (h : ∀ it ∈ l, (processItem it).toOption.isSome = true) :
    (processItems l).length = l.length := by
  induction l with
  | nil => rfl
  | cons it rest ih =>
    have hit := h it (by simp)
    simp only [processItems]
    cases hp : processItem it with
    | ok r => simp [ih fun x hx => h x (by simp [hx])]
    | error e => rw [hp] at hit; simp [Except.toOption] at hit

theorem pyOr_ne_null (o : Option Json) : pyOr o ≠ Json.null := by
  match o with
  | none => simp [pyOr]
  | some v =>
    simp only [pyOr]
    split
    · rename_i ht
      intro he
      rw [he] at ht
      simp [Json.truthy] at ht
    · simp

theorem pyOr_some_str (s : String) : pyOr (some (Json.str s)) = Json.str s := by
  by_cases h : s = ""
  · simp [pyOr, Json.truthy, h]
  · simp [pyOr, Json.truthy, String.isEmpty_iff, h]

theorem lastD_cons (v : Json) (l : List Json) (d : Option Json) :
    lastD (v :: l) d = lastD l (some v) := rfl

theorem lastD_eq_of_getLast? (l : List Json) :
    ∀ d v, l.getLast? = some v → lastD l d = some v := by
  induction l with
  | nil => intro d v h; simp at h
  | cons w t ih =>
    intro d v h
    cases t with
    | nil =>
      simp at h
      simp [lastD, h]
    | cons x u =>
      rw [List.getLast?_cons_cons] at h
      exact ih (some w) v h

/-- The accumulator discipline of `_parse_login_fields`: when the scan
finishes without raising, the returned username (resp. password) is the
value of the last matching well-formed descriptor, or the initial
accumulator when there is none. -/
theorem parseLoginFieldsList_ok (fs : List Json) :
    ∀ u0 p0 u p, parseLoginFieldsList fs u0 p0 = .ok (u, p) →
      u = lastD (fs.filterMap userFieldValue) u0 ∧
      p = lastD (fs.filterMap passFieldValue) p0 := by
  induction fs with
  | nil =>
    intro u0 p0 u p h
    simp [parseLoginFieldsList] at h
    simp [lastD, h.1, h.2]
  | cons f rest ih =>
    intro u0 p0 u p h
    cases f with
    | obj m =>
      cases hn : m.lookup "name" with
      | none =>
        simp only [parseLoginFieldsList, hn] at h
        simpa [userFieldValue, passFieldValue, hn] using ih u0 p0 u p h
      | some nameV =>
        cases hv : m.lookup "value" with
        | none =>
          simp only [parseLoginFieldsList, hn, hv] at h
          rcases nameV <;>
            simpa [userFieldValue, passFieldValue, hn, hv] using ih u0 p0 u p h
        | some v =>
          cases nameV with
          | str n =>
            by_cases hu : pyLower n = "username".toList
            · simp only [parseLoginFieldsList, hn, hv, hu, if_true] at h
              have hps : pyLower n ≠ "password".toList := by
                rw [hu]; decide
              have := ih (some v) p0 u p h
              simpa [userFieldValue, passFieldValue, hn, hv, hu, hps,
                lastD_cons] using this
            · by_cases hp : pyLower n = "password".toList
              · simp only [parseLoginFieldsList, hn, hv, hu, hp, if_true,
                  if_false] at h
                have := ih u0 (some v) u p h
                simpa [userFieldValue, passFieldValue, hn, hv, hu, hp,
                  lastD_cons] using this
              · simp only [parseLoginFieldsList, hn, hv, hu, hp, if_false] at h
                replace hu : pyLower n ≠ "username".toList := hu
                replace hp : pyLower n ≠ "password".toList := hp
                simp only [String.toList] at hu hp
                simpa [userFieldValue, passFieldValue, hn, hv, hu, hp] using
                  ih u0 p0 u p h
          | null =>
            simp [parseLoginFieldsList, hn, hv] at h
          | bool b =>
            simp [parseLoginFieldsList, hn, hv] at h
          | num k =>
            simp [parseLoginFieldsList, hn, hv] at h
          | arr l =>
            simp [parseLoginFieldsList, hn, hv] at h
          | obj m2 =>
            simp [parseLoginFieldsList, hn, hv] at h
    | null => simpa [userFieldValue, passFieldValue, parseLoginFieldsList]
        using ih u0 p0 u p h
    | bool b => simpa [userFieldValue, passFieldValue, parseLoginFieldsList]
        using ih u0 p0 u p h
    | num k => simpa [userFieldValue, passFieldValue, parseLoginFieldsList]
        using ih u0 p0 u p h
    | str s => simpa [userFieldValue, passFieldValue, parseLoginFieldsList]
        using ih u0 p0 u p h
    | arr l => simpa [userFieldValue, passFieldValue, parseLoginFieldsList]
        using ih u0 p0 u p h

/-- A skipped descriptor leaves the scan state untouched. -/
theorem parseLoginFieldsList_skip (f : Json) (hf : skippedField f)
    (rest : List Json) (u p : Option Json) :
    parseLoginFieldsList (f :: rest) u p = parseLoginFieldsList rest u p := by
  cases f with
  | obj m =>
    rcases hf m rfl with h | h
    · simp [parseLoginFieldsList, h]
    · cases hn : m.lookup "name" <;> simp [parseLoginFieldsList, hn, h]
  | null => rfl
  | bool b => rfl
  | num k => rfl
  | str s => rfl
  | arr l => rfl

/-- A scan over skipped descriptors only returns the accumulators. -/
theorem parseLoginFieldsList_all_skipped (fs : List Json)
    (h : ∀ f ∈ fs, skippedField f) (u p : Option Json) :
    parseLoginFieldsList fs u p = .ok (u, p) := by
  induction fs with
  | nil => rfl
  | cons f rest ih =>
    rw [parseLoginFieldsList_skip f (h f (by simp)) rest u p]
    exact ih fun g hg => h g (by simp [hg])

/-! ## Lemmas about the CSV writer/reader pair -/

theorem isFieldEnd_of_special_false {c : Char} (h : isSpecialChar c = false) :
    isFieldEnd c = false := by
  simp only [isSpecialChar, Bool.or_eq_false_iff, decide_eq_false_iff_not] at h
  obtain ⟨⟨⟨h1, h2⟩, h3⟩, h4⟩ := h
  simp [isFieldEnd, h1, h3, h4]

theorem quote_of_special_false {c : Char} (h : isSpecialChar c = false) :
    c ≠ '"' := by
  simp only [isSpecialChar, Bool.or_eq_false_iff, decide_eq_false_iff_not] at h
  exact h.1.1.2

theorem quote_not_fieldEnd {c : Char} (h : isFieldEnd c = true) : c ≠ '"' := by
  intro he
  rw [he] at h
  simp [isFieldEnd] at h

theorem parseUnquoted_append (f : List Char) :
    ∀ rest, (∀ c ∈ f, isSpecialChar c = false) → restOk rest = true →
      parseUnquoted (f ++ rest) = (f, rest) := by
  induction f with
  | nil =>
    intro rest _ hrest
    cases rest with
    | nil => rfl
    | cons c t =>
      simp only [restOk] at hrest
      simp [parseUnquoted, hrest]
  | cons c f' ih =>
    intro rest hf hrest
    have hc : isFieldEnd c = false :=
      isFieldEnd_of_special_false (hf c (by simp))
    have ihh := ih rest (fun d hd => hf d (by simp [hd])) hrest
    simp [parseUnquoted, hc, ihh]

theorem parseQuoted_cons_ne {c : Char} (hc : c ≠ '"') (rest : List Char) :
    parseQuoted (c :: rest) =
      (c :: (parseQuoted rest).1, (parseQuoted rest).2) := by
  rw [parseQuoted.eq_def]
  simp [hc]

theorem parseQuoted_escQ (f : List Char) :
    ∀ tail, tail.head? ≠ some '"' →
      parseQuoted (escQ f ++ '"' :: tail) = (f, tail) := by
  induction f with
  | nil =>
    intro tail htail
    cases tail with
    | nil => rfl
    | cons h t =>
      have hq : h ≠ '"' := by
        intro he
        exact htail (by rw [he]; rfl)
      simp [escQ, parseQuoted, hq]
  | cons c f' ih =>
    intro tail htail
    by_cases hc : c = '"'
    · subst hc
      simp [escQ, parseQuoted, ih tail htail]
    · rw [show escQ (c :: f') = c :: escQ f' from by simp [escQ, hc],
        List.cons_append, parseQuoted_cons_ne hc, ih tail htail]

theorem parseField_encodeField (f rest : List Char) (hrest : restOk rest = true) :
    parseField (encodeField f ++ rest) = (f, rest) := by
  by_cases hq : needsQuote f = true
  · have hrq : rest.head? ≠ some '"' := by
      cases rest with
      | nil => simp
      | cons c t =>
        simp only [restOk] at hrest
        intro he
        simp only [List.head?_cons, Option.some.injEq] at he
        exact quote_not_fieldEnd hrest he
    unfold encodeField
    rw [if_pos hq]
    have hsh : ('"' :: (escQ f ++ ['"'])) ++ rest =
        '"' :: (escQ f ++ '"' :: rest) := by
      simp
    rw [hsh]
    simp only [parseField, if_pos rfl]
    exact parseQuoted_escQ f rest hrq
  · have hall : ∀ c ∈ f, isSpecialChar c = false := by
      intro c hc
      by_contra hb
      exact hq (List.any_eq_true.mpr ⟨c, hc, by
        revert hb; cases isSpecialChar c <;> simp⟩)
    unfold encodeField
    rw [if_neg hq]
    cases f with
    | nil =>
      cases rest with
      | nil => rfl
      | cons c t =>
        simp only [restOk] at hrest
        have hcq : c ≠ '"' := quote_not_fieldEnd hrest
        simp only [List.nil_append, parseField, if_neg hcq]
        simp [parseUnquoted, hrest]
    | cons c f' =>
      have hcq : c ≠ '"' := quote_of_special_false (hall c (by simp))
      simp only [List.cons_append, parseField, if_neg hcq]
      rw [← List.cons_append]
      exact parseUnquoted_append (c :: f') rest hall hrest

theorem length_le_encodeRowSep (fs : List (List Char)) :
    fs.length ≤ (encodeRowSep fs).length + 1 := by
  induction fs with
  | nil => simp [encodeRowSep]
  | cons f t ih =>
    cases t with
    | nil => simp [encodeRowSep]
    | cons g t' =>
      simp only [encodeRowSep, List.length_append, List.length_cons] at ih ⊢
      omega

theorem length_lt_encodeRow (fs : List (List Char)) :
    fs.length + 1 ≤ (encodeRow fs).length := by
  have h := length_le_encodeRowSep fs
  simp only [encodeRow, List.length_append, List.length_cons,
    List.length_nil]
  omega

theorem parseRowAux_encodeRow (fs : List (List Char)) :
    ∀ fuel rest, fs ≠ [] → fs.length ≤ fuel →
      parseRowAux fuel (encodeRow fs ++ rest) = (fs, rest) := by
  induction fs with
  | nil => intro fuel rest h _; exact absurd rfl h
  | cons f t ih =>
    intro fuel rest _ hlen
    cases fuel with
    | zero => simp at hlen
    | succ k =>
      cases t with
      | nil =>
        have hsh : encodeRow [f] ++ rest =
            encodeField f ++ ('\r' :: '\n' :: rest) := by
          simp [encodeRow, encodeRowSep]
        rw [hsh]
        simp only [parseRowAux]
        rw [parseField_encodeField f ('\r' :: '\n' :: rest)
          (by simp [restOk, isFieldEnd])]
        simp
      | cons g t' =>
        have hsh : encodeRow (f :: g :: t') ++ rest =
            encodeField f ++ (',' :: (encodeRow (g :: t') ++ rest)) := by
          simp [encodeRow, encodeRowSep]
        rw [hsh]
        simp only [parseRowAux]
        rw [parseField_encodeField f (',' :: (encodeRow (g :: t') ++ rest))
          (by simp [restOk, isFieldEnd])]
        simp only [List.length_cons] at hlen
        have hih := ih k rest (by simp) (by simp only [List.length_cons]; omega)
        simp [hih]

theorem parseCsvAux_nil (fuel : Nat) : parseCsvAux fuel [] = [] := by
  cases fuel <;> rfl

theorem rows_length_le_encodeCsv (rows : List (List (List Char))) :
    rows.length ≤ (encodeCsv rows).length := by
  induction rows with
  | nil => simp [encodeCsv]
  | cons r rs ih =>
    have h2 := length_lt_encodeRow r
    simp only [encodeCsv, List.map_cons, List.flatten_cons,
      List.length_append, List.length_cons] at ih ⊢
    omega

theorem parseCsvAux_encodeCsv (rows : List (List (List Char))) :
    ∀ fuel, (∀ r ∈ rows, r ≠ []) → rows.length ≤ fuel →
      parseCsvAux fuel (encodeCsv rows) = rows := by
  induction rows with
  | nil => intro fuel _ _; simp [encodeCsv, parseCsvAux_nil]
  | cons r rs ih =>
    intro fuel hne hlen
    cases fuel with
    | zero => simp at hlen
    | succ k =>
      have hcs : encodeCsv (r :: rs) = encodeRow r ++ encodeCsv rs := by
        simp [encodeCsv]
      obtain ⟨c, t, hct⟩ : ∃ c t, encodeRow r ++ encodeCsv rs = c :: t := by
        cases hsep : encodeRowSep r with
        | nil => exact ⟨'\r', '\n' :: encodeCsv rs, by simp [encodeRow, hsep]⟩
        | cons x xs =>
            exact ⟨x, (xs ++ ['\r', '\n']) ++ encodeCsv rs,
              by simp [encodeRow, hsep]⟩
      have hlenr : r.length ≤ (encodeRow r ++ encodeCsv rs).length + 1 := by
        have h1 := length_lt_encodeRow r
        rw [List.length_append]
        omega
      rw [hcs, hct]
      simp only [parseCsvAux]
      rw [← hct]
      rw [parseRowAux_encodeRow r ((encodeRow r ++ encodeCsv rs).length + 1)
        (encodeCsv rs) (hne r (by simp)) hlenr]
      simp only [List.length_cons] at hlen
      have hih := ih k (fun x hx => hne x (by simp [hx])) (by omega)
      simp [hih]

/-- The CSV writer/reader round trip: writing any rows (each with at
least one cell) under the `excel` dialect and re-reading the produced
text restores the rows exactly. -/
theorem parseCsv_encodeCsv (rows : List (List (List Char)))
    (h : ∀ r ∈ rows, r ≠ []) : parseCsv (encodeCsv rows) = rows :=
  parseCsvAux_encodeCsv rows _ h (rows_length_le_encodeCsv rows)

/-! ## Lemmas about the export pipeline -/

theorem dictToList_transform_item (r : Record) :
    dictToList icloudFieldnames (transform_item r) =
      .ok [r.title, r.url, r.username, r.password, r.notes, r.otp_auth] := by
  rfl

theorem mapM_ok {α β : Type} (f : α → Except String β) (g : α → β)
    (h : ∀ a, f a = .ok (g a)) (l : List α) :
    l.mapM f = .ok (l.map g) := by
  induction l with
  | nil => rfl
  | cons a t ih =>
    rw [List.mapM_cons]
    simp only [h, ih]
    rfl

/-- The exporter never fails on record lists, and the produced file is
the encoding of the header row followed by one row per record. -/
theorem exportIcloud_eq (recs : List Record) :
    exportIcloud recs =
      .ok (encodeCsv ((icloudFieldnames.map String.toList) ::
        recs.map recordCells)) := by
  unfold exportIcloud
  rw [mapM_ok _ (fun r => [r.title, r.url, r.username, r.password, r.notes,
    r.otp_auth]) dictToList_transform_item recs]
  simp only [encodeCsv, List.map_cons, List.flatten_cons, List.map_map]
  congr 1

/-- Inversion of a successful item conversion: the shapes the source
must have had, and the record produced from them. -/
theorem processItem_ok_inv (item : Json) (r : Record)
    (hok : processItem item = .ok r) :
    ∃ ifields ov dv u p,
      item = Json.obj ifields ∧
      objGetD ifields "overview" (Json.obj []) = Json.obj ov ∧
      objGetD ifields "details" (Json.obj []) = Json.obj dv ∧
      (if (objGetD dv "loginFields" (Json.arr [])).truthy then
          parseLoginFields (objGetD dv "loginFields" (Json.arr []))
        else .ok (none, none)) = .ok (u, p) ∧
      r = ⟨objGetD ov "title" (Json.str "Untitled"),
           objGetD ov "url" (Json.str ""),
           pyOr u, pyOr p, Json.str "", Json.str ""⟩ := by
  cases item with
  | obj ifields =>
    simp only [processItem] at hok
    split at hok
    next ov hov =>
      split at hok
      next dv hdv =>
        split at hok
        next u p hpr =>
          simp only [Except.ok.injEq] at hok
          exact ⟨ifields, ov, dv, u, p, rfl, hov, hdv, hpr, hok.symm⟩
        next e hpr => simp at hok
      next hdv => simp at hok
    next hov => simp at hok
  | null => simp [processItem] at hok
  | bool b => simp [processItem] at hok
  | num n => simp [processItem] at hok
  | str s => simp [processItem] at hok
  | arr l => simp [processItem] at hok

/-! ## Claims -/

/-- **C1.** For every valid archive whose document contains N well-formed
items, parsing returns exactly N records, in source order; an item whose
processing raises is skipped (the loop continues), so one malformed item
never aborts the whole conversion — the result is exactly the ordered
`filterMap` of the per-item outcomes, and has length N when every item
is well-formed. -/
theorem c1_parse_count_and_order
    (df a0 v0 : List (String × Json)) (accRest vRest : List Json)
    (l : List Json)
    (hacc : objGetD df "accounts" (Json.arr []) =
      Json.arr (Json.obj a0 :: accRest))
    (hv : objGetD a0 "vaults" (Json.arr []) = Json.arr (Json.obj v0 :: vRest))
    (hi : objGetD v0 "items" (Json.arr []) = Json.arr l) :
    convertToKeychain (some (Json.obj df)) = .ok (processItems l)
    ∧ processItems l = l.filterMap (fun it => (processItem it).toOption)
    ∧ ((∀ it ∈ l, (processItem it).toOption.isSome = true) →
        (processItems l).length = l.length) := by
  refine ⟨?_, processItems_eq_filterMap l,
    fun h => length_processItems_of_all_ok l h⟩
  simp [convertToKeychain, hacc, hv, hi, Json.truthy, pySubscriptZero, pyIter]

/-- Witness for C1 on a concrete two-item archive, one item well-formed
and one raising. -/
theorem c1_parse_count_and_order_witness :
    convertToKeychain (some (docOf [itemBank, itemJunk])) =
      .ok (processItems [itemBank, itemJunk])
    ∧ processItems [itemBank, itemJunk] =
      [itemBank, itemJunk].filterMap (fun it => (processItem it).toOption)
    ∧ ((∀ it ∈ [itemBank, itemJunk], (processItem it).toOption.isSome = true) →
        (processItems [itemBank, itemJunk]).length =
          [itemBank, itemJunk].length) :=
  c1_parse_count_and_order _ _ _ _ _ _ rfl rfl rfl

/-- **C2 (counterexample).** An item whose `overview.title` is present
but empty yields the empty title, not `"Untitled"`, refuting the
"absent/empty" reading of the default. -/
theorem c2_counterexample :
    processItem (Json.obj [("overview", Json.obj [("title", Json.str "")])]) =
      .ok ⟨Json.str "", Json.str "", Json.str "", Json.str "",
        Json.str "", Json.str ""⟩
    ∧ Json.str "" ≠ Json.str "Untitled" :=
  ⟨rfl, by simp⟩

/-- **C2 (amended).** The `"Untitled"` default applies exactly when
`overview.title` is absent; a present title — even the empty string — is
taken verbatim. -/
theorem c2_title_default_only_when_absent
    (item : Json) (ov : List (String × Json)) (r : Record)
    (hok : processItem item = .ok r)
    (hov : ∀ ifields, item = Json.obj ifields →
      objGetD ifields "overview" (Json.obj []) = Json.obj ov) :
    (ov.lookup "title" = none → r.title = Json.str "Untitled")
    ∧ (∀ t, ov.lookup "title" = some t → r.title = t) := by
  obtain ⟨ifields, ov', dv, u, p, hitem, hov', hdv, hpr, hr⟩ :=
    processItem_ok_inv item r hok
  have hoveq : Json.obj ov = Json.obj ov' := (hov ifields hitem).symm.trans hov'
  obtain rfl : ov = ov' := by injection hoveq
  constructor
  · intro hnone
    rw [hr]
    simp [objGetD, hnone]
  · intro t ht
    rw [hr]
    simp [objGetD, ht]

/-- Witness for C2 (amended): a record with an absent title and one with
an explicit title. -/
theorem c2_title_default_only_when_absent_witness :
    (([] : List (String × Json)).lookup "title" = none →
      (Record.mk (Json.str "Untitled") (Json.str "") (Json.str "")
        (Json.str "") (Json.str "") (Json.str "")).title =
        Json.str "Untitled")
    ∧ (∀ t, ([] : List (String × Json)).lookup "title" = some t →
      (Record.mk (Json.str "Untitled") (Json.str "") (Json.str "")
        (Json.str "") (Json.str "") (Json.str "")).title = t) :=
  c2_title_default_only_when_absent (Json.obj []) [] _ rfl
    (fun _ h => by injection h with h'; rw [← h']; rfl)

/-- **C3 (counterexample).** A present JSON `null` under
`overview.title` flows into the record unchanged: the produced record
carries a null marker, refuting "all six fields … never null". -/
theorem c3_counterexample :
    processItem (Json.obj [("overview", Json.obj [("title", Json.null)])]) =
      .ok ⟨Json.null, Json.str "", Json.str "", Json.str "",
        Json.str "", Json.str ""⟩
    ∧ (Record.mk Json.null (Json.str "") (Json.str "") (Json.str "")
        (Json.str "") (Json.str "")).title = Json.null :=
  ⟨rfl, rfl⟩

/-- **C3 (amended).** All six fields are always present on every record
the parser produces; `username`, `password`, `notes` and `otp_auth` are
never null (missing credential data becomes the empty string), but a
present `overview.title`/`overview.url` value is stored verbatim, so a
source JSON null survives into those two fields. -/
theorem c3_fields_present_and_credentials_never_null
    (item : Json) (r : Record) (hok : processItem item = .ok r) :
    r.notes = Json.str "" ∧ r.otp_auth = Json.str "" ∧
    r.username ≠ Json.null ∧ r.password ≠ Json.null := by
  obtain ⟨ifields, ov, dv, u, p, _, _, _, _, hr⟩ :=
    processItem_ok_inv item r hok
  rw [hr]
  exact ⟨rfl, rfl, pyOr_ne_null u, pyOr_ne_null p⟩

/-- **C4.** Username/password matching in `loginFields` is
case-insensitive and the last matching entry wins: when the scan
succeeds, the scanned username (resp. password) is the value of the last
matching descriptor, and the produced record carries that value
(verbatim whenever it is a string). -/
theorem c4_last_duplicate_wins
    (ifields ov dv : List (String × Json)) (fs : List Json)
    (u p : Option Json) (r : Record)
    (hov : objGetD ifields "overview" (Json.obj []) = Json.obj ov)
    (hdv : objGetD ifields "details" (Json.obj []) = Json.obj dv)
    (hlf : objGetD dv "loginFields" (Json.arr []) = Json.arr fs)
    (hne : fs ≠ [])
    (hparse : parseLoginFieldsList fs none none = .ok (u, p))
    (hok : processItem (Json.obj ifields) = .ok r) :
    (∀ vu, (fs.filterMap userFieldValue).getLast? = some vu →
      u = some vu ∧ r.username = pyOr (some vu) ∧
      ∀ s, vu = Json.str s → r.username = Json.str s)
    ∧ (∀ vp, (fs.filterMap passFieldValue).getLast? = some vp →
      p = some vp ∧ r.password = pyOr (some vp) ∧
      ∀ s, vp = Json.str s → r.password = Json.str s) := by
  have htr : (Json.arr fs).truthy = true := by
    cases fs with
    | nil => exact absurd rfl hne
    | cons a t => simp [Json.truthy]
  have hru : r.username = pyOr u ∧ r.password = pyOr p := by
    simp only [processItem, hov, hdv, hlf, htr, if_true, parseLoginFields,
      hparse, Except.ok.injEq] at hok
    rw [← hok]
    exact ⟨rfl, rfl⟩
  have hul := parseLoginFieldsList_ok fs none none u p hparse
  constructor
  · intro vu hvu
    have hlast : lastD (fs.filterMap userFieldValue) none = some vu :=
      lastD_eq_of_getLast? _ none vu hvu
    have hu : u = some vu := hul.1.trans hlast
    refine ⟨hu, by rw [hru.1, hu], fun s hs => ?_⟩
    rw [hru.1, hu, hs, pyOr_some_str]
  · intro vp hvp
    have hlast : lastD (fs.filterMap passFieldValue) none = some vp :=
      lastD_eq_of_getLast? _ none vp hvp
    have hp : p = some vp := hul.2.trans hlast
    refine ⟨hp, by rw [hru.2, hp], fun s hs => ?_⟩
    rw [hru.2, hp, hs, pyOr_some_str]

/-- Witness for C4 on login fields with two username and two password
descriptors of varying case. -/
theorem c4_last_duplicate_wins_witness :
    (∀ vu, (dupFields.filterMap userFieldValue).getLast? = some vu →
      some (Json.str "bob") = some vu ∧
      (Record.mk (Json.str "Untitled") (Json.str "") (Json.str "bob")
        (Json.str "p2") (Json.str "") (Json.str "")).username =
          pyOr (some vu) ∧
      ∀ s, vu = Json.str s →
        (Record.mk (Json.str "Untitled") (Json.str "") (Json.str "bob")
          (Json.str "p2") (Json.str "") (Json.str "")).username =
            Json.str s)
    ∧ (∀ vp, (dupFields.filterMap passFieldValue).getLast? = some vp →
      some (Json.str "p2") = some vp ∧
      (Record.mk (Json.str "Untitled") (Json.str "") (Json.str "bob")
        (Json.str "p2") (Json.str "") (Json.str "")).password =
          pyOr (some vp) ∧
      ∀ s, vp = Json.str s →
        (Record.mk (Json.str "Untitled") (Json.str "") (Json.str "bob")
          (Json.str "p2") (Json.str "") (Json.str "")).password =
            Json.str s) :=
  c4_last_duplicate_wins
    [("details", Json.obj [("loginFields", Json.arr dupFields)])] []
    [("loginFields", Json.arr dupFields)] dupFields
    (some (Json.str "bob")) (some (Json.str "p2")) _
    rfl rfl rfl (by simp [dupFields]) rfl rfl

/-- **C5.** Round trip through the `icloud` schema: exporting N records
(with string title/url/username/password and empty notes/otp, as the
parser produces them) and re-reading the CSV under standard quoting
yields the header row plus exactly N data rows whose Title, URL,
Username and Password columns are the original fields and whose Notes
and OTPAuth columns are empty. -/
theorem c5_icloud_roundtrip (recs : List Record)
    (h : ∀ r ∈ recs, (∃ s, r.title = Json.str s) ∧ (∃ s, r.url = Json.str s) ∧
      (∃ s, r.username = Json.str s) ∧ (∃ s, r.password = Json.str s) ∧
      r.notes = Json.str "" ∧ r.otp_auth = Json.str "") :
    ∃ content, exportIcloud recs = .ok content ∧
      parseCsv content = (icloudFieldnames.map String.toList) ::
        recs.map (fun r => [strChars r.title, strChars r.url,
          strChars r.username, strChars r.password, [], []]) ∧
      (parseCsv content).length = recs.length + 1 := by
  have hrows : ∀ row ∈ (icloudFieldnames.map String.toList) ::
      recs.map recordCells, row ≠ [] := by
    intro row hrow
    rcases List.mem_cons.mp hrow with h1 | h2
    · subst h1; simp [icloudFieldnames]
    · obtain ⟨r, _, rfl⟩ := List.mem_map.mp h2
      simp [recordCells]
  have hrt := parseCsv_encodeCsv _ hrows
  have hcells : recs.map recordCells =
      recs.map (fun r => [strChars r.title, strChars r.url,
        strChars r.username, strChars r.password, [], []]) := by
    apply List.map_congr_left
    intro r hr
    obtain ⟨⟨t, ht⟩, ⟨w, hw⟩, ⟨un, hun⟩, ⟨pw, hpw⟩, hn, ho⟩ := h r hr
    simp [recordCells, csvCell, strChars, ht, hw, hun, hpw, hn, ho]
  refine ⟨_, exportIcloud_eq recs, ?_, ?_⟩
  · rw [hrt, hcells]
  · rw [hrt]
    simp

/-- Witness for C5 on the one-record list from the specification's
scenario. -/
theorem c5_icloud_roundtrip_witness :
    ∃ content, exportIcloud [recBank] = .ok content ∧
      parseCsv content = (icloudFieldnames.map String.toList) ::
        [recBank].map (fun r => [strChars r.title, strChars r.url,
          strChars r.username, strChars r.password, [], []]) ∧
      (parseCsv content).length = [recBank].length + 1 :=
  c5_icloud_roundtrip [recBank] (by
    intro r hr
    simp only [List.mem_singleton] at hr
    subst hr
    exact ⟨⟨"Bank", rfl⟩, ⟨"bank.com", rfl⟩, ⟨"alice", rfl⟩,
      ⟨"s3cr3t", rfl⟩, rfl, rfl⟩)

/-- Witness for C3 (amended) on the concrete sample item. -/
theorem c3_fields_present_and_credentials_never_null_witness :
    (Record.mk (Json.str "Bank") (Json.str "bank.com") (Json.str "alice")
      (Json.str "s3cr3t") (Json.str "") (Json.str "")).notes = Json.str ""
    ∧ (Record.mk (Json.str "Bank") (Json.str "bank.com") (Json.str "alice")
      (Json.str "s3cr3t") (Json.str "") (Json.str "")).otp_auth = Json.str ""
    ∧ (Record.mk (Json.str "Bank") (Json.str "bank.com") (Json.str "alice")
      (Json.str "s3cr3t") (Json.str "") (Json.str "")).username ≠ Json.null
    ∧ (Record.mk (Json.str "Bank") (Json.str "bank.com") (Json.str "alice")
      (Json.str "s3cr3t") (Json.str "") (Json.str "")).password ≠ Json.null :=
  c3_fields_present_and_credentials_never_null itemBank _ rfl

/-- **C6 (counterexample).** A row that supplies only the Title column
is accepted by the writer — the five missing columns are filled with the
empty-string `restval` and no error of any kind is raised — refuting
"a row that is missing a column causes a `SchemaMismatch` error rather
than being written". -/
theorem c6_counterexample :
    dictToList icloudFieldnames [("Title", Json.str "Bank")] =
      .ok [Json.str "Bank", Json.str "", Json.str "", Json.str "",
        Json.str "", Json.str ""]
    ∧ ∀ e, dictToList icloudFieldnames [("Title", Json.str "Bank")] ≠
        .error e := by
  have hval : dictToList icloudFieldnames [("Title", Json.str "Bank")] =
      .ok [Json.str "Bank", Json.str "", Json.str "", Json.str "",
        Json.str "", Json.str ""] := rfl
  refine ⟨hval, fun e h => ?_⟩
  rw [hval] at h
  simp at h

/-- **C6 (amended).** A row whose keys all lie in the header is always
written, any missing column being filled with the empty-string
`restval`; only a row carrying a key outside the header raises
(`ValueError`, the `SchemaMismatch` condition). -/
theorem c6_missing_column_filled_extra_key_rejected
    (fieldnames : List String) (row : List (String × Json)) :
    ((∀ kv ∈ row, kv.1 ∈ fieldnames) →
      dictToList fieldnames row =
        .ok (fieldnames.map fun k => (row.lookup k).getD (Json.str "")))
    ∧ ((∃ kv ∈ row, kv.1 ∉ fieldnames) →
      ∃ e, dictToList fieldnames row = .error e) := by
  constructor
  · intro hall
    have hany : row.any (fun kv => !(fieldnames.contains kv.1)) = false := by
      rw [List.any_eq_false]
      rintro ⟨a, b⟩ hab
      have hm := hall (a, b) hab
      simp [hm]
    simp only [dictToList]
    rw [if_neg (by rw [hany]; simp)]
  · rintro ⟨kv, hkv, hnot⟩
    have hany : row.any (fun kv => !(fieldnames.contains kv.1)) = true :=
      List.any_eq_true.mpr ⟨kv, hkv, by simp [hnot]⟩
    refine ⟨"ValueError: dict contains fields not in fieldnames", ?_⟩
    simp only [dictToList]
    rw [if_pos hany]

/-- Witness for C6 (amended): a row missing five columns is written with
empty cells; a row with a stray key errors. -/
theorem c6_missing_column_filled_extra_key_rejected_witness :
    dictToList icloudFieldnames [("Title", Json.str "Bank")] =
      .ok (icloudFieldnames.map fun k =>
        (([("Title", Json.str "Bank")]).lookup k).getD (Json.str ""))
    ∧ ∃ e, dictToList icloudFieldnames [("Extra", Json.str "x")] =
        .error e :=
  ⟨(c6_missing_column_filled_extra_key_rejected icloudFieldnames
      [("Title", Json.str "Bank")]).1 (by simp [icloudFieldnames]),
   (c6_missing_column_filled_extra_key_rejected icloudFieldnames
      [("Extra", Json.str "x")]).2
     ⟨("Extra", Json.str "x"), by simp, by simp [icloudFieldnames]⟩⟩

/-- **C7.** A field descriptor that is not a dict or lacks `name`/`value`
is skipped without aborting the item: the scan simply moves on, the item
still yields a record (with empty username/password when every
descriptor is skipped), and in any item list the surrounding items are
processed exactly as before. -/
theorem c7_malformed_descriptor_skipped
    (ifields ov dv : List (String × Json)) (fs : List Json)
    (hov : objGetD ifields "overview" (Json.obj []) = Json.obj ov)
    (hdv : objGetD ifields "details" (Json.obj []) = Json.obj dv)
    (hlf : objGetD dv "loginFields" (Json.arr []) = Json.arr fs)
    (hmal : ∀ f ∈ fs, skippedField f) :
    (∀ f u p rest, skippedField f →
      parseLoginFieldsList (f :: rest) u p = parseLoginFieldsList rest u p)
    ∧ ∃ r, processItem (Json.obj ifields) = .ok r ∧
        r.username = Json.str "" ∧ r.password = Json.str "" ∧
        ∀ pre post, processItems (pre ++ Json.obj ifields :: post) =
          processItems pre ++ r :: processItems post := by
  refine ⟨fun f u p rest hf => parseLoginFieldsList_skip f hf rest u p, ?_⟩
  have hpr : (if (Json.arr fs).truthy then parseLoginFields (Json.arr fs)
      else .ok (none, none)) = .ok (none, none) := by
    cases fs with
    | nil => simp [Json.truthy]
    | cons a t =>
      simp only [Json.truthy, List.isEmpty_cons, Bool.not_false, if_true,
        parseLoginFields]
      exact parseLoginFieldsList_all_skipped _ hmal none none
  have hok : processItem (Json.obj ifields) =
      .ok ⟨objGetD ov "title" (Json.str "Untitled"),
        objGetD ov "url" (Json.str ""), Json.str "", Json.str "",
        Json.str "", Json.str ""⟩ := by
    simp only [processItem, hov, hdv, hlf, hpr]
    simp [pyOr]
  refine ⟨_, hok, rfl, rfl, fun pre post => ?_⟩
  rw [processItems_append]
  simp only [processItems, hok]

/-- Witness for C7 on the three-item archive of the specification's
scenario: the malformed-descriptor item still yields a record with empty
credentials, between the unchanged records of its neighbours. -/
theorem c7_malformed_descriptor_skipped_witness :
    (∀ f u p rest, skippedField f →
      parseLoginFieldsList (f :: rest) u p = parseLoginFieldsList rest u p)
    ∧ ∃ r, processItem (Json.obj [("details", Json.obj [("loginFields",
        Json.arr [Json.str "oops"])])]) = .ok r ∧
        r.username = Json.str "" ∧ r.password = Json.str "" ∧
        ∀ pre post, processItems (pre ++ Json.obj [("details", Json.obj
          [("loginFields", Json.arr [Json.str "oops"])])] :: post) =
          processItems pre ++ r :: processItems post :=
  c7_malformed_descriptor_skipped
    [("details", Json.obj [("loginFields", Json.arr [Json.str "oops"])])]
    [] [("loginFields", Json.arr [Json.str "oops"])] [Json.str "oops"]
    rfl rfl rfl
    (by
      intro f hf
      simp only [List.mem_singleton] at hf
      subst hf
      exact fun m h => Json.noConfusion h)

/-- **C8.** An input path that does not exist, is not a regular file or
does not carry the `.1pux` extension (case-insensitively) makes
`convert` fail with the corresponding `InvalidInput` error before any
extraction is attempted, and no scratch directory is ever created. -/
theorem c8_invalid_input_rejected_before_extraction (f : InputFile)
    (h : f.pathExists = false ∨ f.isFile = false ∨
      (pathSuffix f.path.toList).map Char.toLower ≠ ".1pux".toList) :
    (∃ e, (convert f).result = .error e ∧
      (e = ConvError.fileNotFound ∨ e = ConvError.notAFile ∨
        e = ConvError.invalidExtension))
    ∧ (convert f).extractionAttempted = false
    ∧ (convert f).scratchCreated = false := by
  have hval : ∃ e, validateInput f = .error e ∧
      (e = ConvError.fileNotFound ∨ e = ConvError.notAFile ∨
        e = ConvError.invalidExtension) := by
    cases hpe : f.pathExists with
    | false => exact ⟨.fileNotFound, by simp [validateInput, hpe], Or.inl rfl⟩
    | true =>
      cases hif : f.isFile with
      | false =>
        exact ⟨.notAFile, by simp [validateInput, hpe, hif],
          Or.inr (Or.inl rfl)⟩
      | true =>
        have hsuf : (pathSuffix f.path.toList).map Char.toLower ≠
            ".1pux".toList := by
          rcases h with h | h | h
          · rw [hpe] at h; exact absurd h (by simp)
          · rw [hif] at h; exact absurd h (by simp)
          · exact h
        refine ⟨.invalidExtension, ?_, Or.inr (Or.inr rfl)⟩
        unfold validateInput
        rw [hpe, hif]
        simp only [Bool.not_true, Bool.false_eq_true, if_false]
        rw [if_pos hsuf]
  obtain ⟨e, he, hk⟩ := hval
  have hcv : convert f = ConvOutcome.mk (.error e) false false false := by
    unfold convert
    rw [he]
  rw [hcv]
  exact ⟨⟨e, rfl, hk⟩, rfl, rfl⟩

/-- Witness for C8 on a `.zip` path: rejected with `InvalidInput`, no
extraction, no scratch directory. -/
theorem c8_invalid_input_rejected_before_extraction_witness :
    (∃ e, (convert (InputFile.mk "vault.zip" true true
        (Archive.mk true true none))).result = .error e ∧
      (e = ConvError.fileNotFound ∨ e = ConvError.notAFile ∨
        e = ConvError.invalidExtension))
    ∧ (convert (InputFile.mk "vault.zip" true true
        (Archive.mk true true none))).extractionAttempted = false
    ∧ (convert (InputFile.mk "vault.zip" true true
        (Archive.mk true true none))).scratchCreated = false :=
  c8_invalid_input_rejected_before_extraction _
    (Or.inr (Or.inr (by decide)))

/-- **C9.** Whenever `convert` passes validation and reaches the
Extracting step, the scratch directory is created and — by the
`with`-block semantics of `TemporaryDirectory` — removed again on every
exit path, whatever the body does (the hypothesis constrains only
validation, not the archive, so the conclusion covers success and every
later failure alike). -/
theorem c9_scratch_dir_created_and_removed (f : InputFile)
    (h : validateInput f = .ok ()) :
    (convert f).scratchCreated = true ∧ (convert f).scratchRemoved = true := by
  have hcv : convert f =
      ConvOutcome.mk (convertBody f.archive) true true true := by
    unfold convert
    rw [h]
  rw [hcv]
  exact ⟨rfl, rfl⟩

/-- Witness for C9 on a run whose extraction step fails (corrupt
archive): the scratch directory is still created and removed. -/
theorem c9_scratch_dir_created_and_removed_witness :
    (convert (InputFile.mk "vault.1pux" true true
      (Archive.mk false false none))).scratchCreated = true
    ∧ (convert (InputFile.mk "vault.1pux" true true
      (Archive.mk false false none))).scratchRemoved = true :=
  c9_scratch_dir_created_and_removed _ rfl

/-- **C10.** A valid archive whose first vault has no items (or no
`items` key, since the lookup defaults to the empty list) converts
successfully into a CSV file holding exactly the header row and no data
rows. -/
theorem c10_empty_vault_header_only (f : InputFile)
    (df a0 v0 : List (String × Json)) (accRest vRest : List Json)
    (hval : validateInput f = .ok ())
    (hzip : f.archive.isZip = true) (hed : f.archive.hasExportData = true)
    (hdoc : f.archive.doc = some (Json.obj df))
    (hacc : objGetD df "accounts" (Json.arr []) =
      Json.arr (Json.obj a0 :: accRest))
    (hv : objGetD a0 "vaults" (Json.arr []) = Json.arr (Json.obj v0 :: vRest))
    (hi : objGetD v0 "items" (Json.arr []) = Json.arr []) :
    (convert f).result =
      .ok ("Title,URL,Username,Password,Notes,OTPAuth\r\n".toList) := by
  have hex : extract1passwordFile f.archive = .ok (some (Json.obj df)) := by
    simp [extract1passwordFile, hzip, hed, hdoc]
  have hck : convertToKeychain (some (Json.obj df)) = .ok [] := by
    simp [convertToKeychain, hacc, hv, hi, Json.truthy, pySubscriptZero,
      pyIter, processItems]
  have hexp : exportIcloud ([] : List Record) =
      .ok ("Title,URL,Username,Password,Notes,OTPAuth\r\n".toList) := by
    rw [exportIcloud_eq]
    rfl
  have hcv : convert f =
      ConvOutcome.mk (convertBody f.archive) true true true := by
    unfold convert
    rw [hval]
  rw [hcv]
  show convertBody f.archive = _
  simp only [convertBody, hex, hck, hexp]

/-- Witness for C10 on a concrete empty-vault archive. -/
theorem c10_empty_vault_header_only_witness :
    (convert (InputFile.mk "vault.1pux" true true
      (Archive.mk true true (some (docOf []))))).result =
      .ok ("Title,URL,Username,Password,Notes,OTPAuth\r\n".toList) :=
  c10_empty_vault_header_only _ _ _ _ _ _ rfl rfl rfl rfl rfl rfl rfl

end OneP
